import Mathlib

/-!
A shallow embedding of the `atto` terminal text editor (src/atto.c) in Lean 4,
together with proofs about its specification.

Modelling conventions:
* C bytes are modelled as `Nat` (every `char` handled by the editor is used as an
  unsigned byte value below 256, and key events are small ints up to 1008).
* The global `struct editorConfig E` becomes an explicit `EditorState` value that
  is threaded through every operation.
* A C `int` index parameter that the source range-checks (the `at` arguments)
  is modelled as `Int`, so that negative out-of-range inputs are representable.
  Fields of the editor state (`cx`, `cy`, ...) are modelled as `Nat`: in the
  source every decrement of these fields is guarded by a positivity test, so
  they are never negative.
* `read`/`write`/`open`/`ftruncate` and the terminal are external collaborators:
  `editorReadKey` is a function of the pending input byte stream, `editorOpen`
  a function of the list of lines `getline` yields, and `editorSave` takes the
  outcome of the file-descriptor operations as an explicit `SaveOutcome` argument.
* The status message buffer holds one of finitely many printf-formatted texts;
  it is modelled by the inductive `StatusMsg` recording which format was used
  and the arguments that were interpolated.
-/

/-- ATTO_TAB_STOP (src/atto.c line 27): tab size. -/
def ATTO_TAB_STOP : Nat := 4

/-- ATTO_QUIT_TIMES (src/atto.c line 30): quit confirmation count. -/
def ATTO_QUIT_TIMES : Nat := 2

/-- CTRL_KEY macro: (k) AND 0x1F. -/
def CTRL_KEY (k : Nat) : Nat := k &&& 0x1F

/-- enum editorKey: BACKSPACE = 127. -/
def BACKSPACE : Nat := 127

/-- enum editorKey: ARROW_LEFT = 1000. -/
def ARROW_LEFT : Nat := 1000

/-- enum editorKey: ARROW_RIGHT = 1001. -/
def ARROW_RIGHT : Nat := 1001

/-- enum editorKey: ARROW_UP = 1002. -/
def ARROW_UP : Nat := 1002

/-- enum editorKey: ARROW_DOWN = 1003. -/
def ARROW_DOWN : Nat := 1003

/-- enum editorKey: DEL_KEY = 1004. -/
def DEL_KEY : Nat := 1004

/-- enum editorKey: HOME_KEY = 1005. -/
def HOME_KEY : Nat := 1005

/-- enum editorKey: END_KEY = 1006. -/
def END_KEY : Nat := 1006

/-- enum editorKey: PAGE_UP = 1007. -/
def PAGE_UP : Nat := 1007

/-- enum editorKey: PAGE_DOWN = 1008. -/
def PAGE_DOWN : Nat := 1008

/-- struct erow: one row of the document.  `chars` is the raw text, `render`
the tab-expanded text.  The C `size`/`rsize` fields are the lengths of the two
buffers (the source keeps them in sync with the buffer contents at all times),
so they are represented implicitly by `List.length`. -/
structure Erow where
  chars : List Nat
  render : List Nat
deriving DecidableEq, Repr

/-- The render-building loop of editorUpdateRow (src/atto.c lines 399-416),
with `idx` the number of render bytes emitted so far: a tab byte (9) emits one
space (32) and then further spaces until `idx` is a multiple of ATTO_TAB_STOP;
any other byte is copied. -/
def renderFrom : List Nat → Nat → List Nat
  | [], _ => []
  | c :: cs, idx =>
    if c = 9 then
      let pad := 1 + (ATTO_TAB_STOP - (idx + 1) % ATTO_TAB_STOP) % ATTO_TAB_STOP
      List.replicate pad 32 ++ renderFrom cs (idx + pad)
    else c :: renderFrom cs (idx + 1)

/-- editorUpdateRow (src/atto.c lines 385-419): recompute `render` from `chars`. -/
def editorUpdateRow (row : Erow) : Erow :=
  { row with render := renderFrom row.chars 0 }

/-- Build a fresh row from raw text, as editorInsertRow does (allocate `chars`,
then call editorUpdateRow). -/
def mkRow (chars : List Nat) : Erow :=
  editorUpdateRow { chars := chars, render := [] }

/-- The contents of the 80-byte `statusmsg` buffer, by which call site of
editorSetStatusMessage wrote it last and with which arguments. -/
inductive StatusMsg where
  | empty
  | help
  | quitWarning (timesLeft : Nat)
  | bytesWritten (len : Nat)
  | ioError (err : List Nat)
  | saveAborted
deriving DecidableEq, Repr

/-- struct editorConfig (src/atto.c lines 62-95), minus the termios field
(terminal collaborator).  `quit_times` is the static counter of
editorProcessKeypress, lifted into the state. -/
structure EditorState where
  cx : Nat
  cy : Nat
  rx : Nat
  rowoff : Nat
  coloff : Nat
  screenrows : Nat
  screencols : Nat
  rows : List Erow
  dirty : Nat
  filename : Option (List Nat)
  statusmsg : StatusMsg
  quit_times : Nat
deriving DecidableEq, Repr

/-- initEditor (src/atto.c lines 1171-1205): the state at startup, given the
window size reported by the terminal (the last two rows are reserved for the
status and message bars). -/
def initEditor (wsRows wsCols : Nat) : EditorState :=
  { cx := 0, cy := 0, rx := 0, rowoff := 0, coloff := 0
    screenrows := wsRows - 2, screencols := wsCols
    rows := [], dirty := 0, filename := none
    statusmsg := StatusMsg.empty, quit_times := ATTO_QUIT_TIMES }

/-- The row length at index `cy`, or 0 for the virtual row past end of file:
the idiom `row = (E.cy >= E.numrows) ? NULL : &E.row[E.cy]; row ? row->size : 0`. -/
def rowLen (e : EditorState) (cy : Nat) : Nat :=
  match e.rows[cy]? with
  | none => 0
  | some r => r.chars.length

/-- editorRowInsertChar (src/atto.c lines 473-487), row-level part: clamp `at`
to the row length if out of range, splice the byte in, re-render.  (The
`++E.dirty` of the source lives in the state-level wrapper below.) -/
def editorRowInsertChar (row : Erow) (atIdx : Int) (c : Nat) : Erow :=
  let atN : Nat := if atIdx < 0 ∨ atIdx > (row.chars.length : Int) then row.chars.length else atIdx.toNat
  editorUpdateRow { row with chars := row.chars.insertIdx atN c }

/-- editorRowDelChar (src/atto.c lines 505-514), row-level part: no-op when
`at` is outside [0, size), otherwise remove the byte and re-render. -/
def editorRowDelChar (row : Erow) (atIdx : Int) : Erow :=
  if atIdx < 0 ∨ atIdx ≥ (row.chars.length : Int) then row
  else editorUpdateRow { row with chars := row.chars.eraseIdx atIdx.toNat }

/-- editorRowAppendString (src/atto.c lines 492-500), row-level part. -/
def editorRowAppendString (row : Erow) (s : List Nat) : Erow :=
  editorUpdateRow { row with chars := row.chars ++ s }

/-- editorInsertRow (src/atto.c lines 425-445): no-op when `at` is outside
[0, numrows], otherwise insert a fresh row and bump `dirty`. -/
def editorInsertRow (atIdx : Int) (s : List Nat) (e : EditorState) : EditorState :=
  if atIdx < 0 ∨ atIdx > (e.rows.length : Int) then e
  else { e with rows := e.rows.insertIdx atIdx.toNat (mkRow s), dirty := e.dirty + 1 }

/-- editorDelRow (src/atto.c lines 459-468): no-op when `at` is outside
[0, numrows), otherwise remove the row and bump `dirty`. -/
def editorDelRow (atIdx : Int) (e : EditorState) : EditorState :=
  if atIdx < 0 ∨ atIdx ≥ (e.rows.length : Int) then e
  else { e with rows := e.rows.eraseIdx atIdx.toNat, dirty := e.dirty + 1 }

/-- editorRowInsertChar applied to row `cy` of the state, including the
`++E.dirty`.  (In the source the caller passes a pointer `&E.row[E.cy]` that it
guarantees valid; a dangling index leaves the state unchanged here.) -/
def editorRowInsertCharE (cy : Nat) (atIdx : Int) (c : Nat) (e : EditorState) : EditorState :=
  match e.rows[cy]? with
  | none => e
  | some row =>
    { e with rows := e.rows.set cy (editorRowInsertChar row atIdx c), dirty := e.dirty + 1 }

/-- editorRowDelChar applied to row `cy` of the state: `dirty` is bumped only
on the path that actually deletes a byte (the out-of-range early return of the
source precedes `++E.dirty`). -/
def editorRowDelCharE (cy : Nat) (atIdx : Int) (e : EditorState) : EditorState :=
  match e.rows[cy]? with
  | none => e
  | some row =>
    if atIdx < 0 ∨ atIdx ≥ (row.chars.length : Int) then e
    else { e with rows := e.rows.set cy (editorRowDelChar row atIdx), dirty := e.dirty + 1 }

/-- editorRowAppendString applied to row `cy` of the state, including `++E.dirty`. -/
def editorRowAppendStringE (cy : Nat) (s : List Nat) (e : EditorState) : EditorState :=
  match e.rows[cy]? with
  | none => e
  | some row =>
    { e with rows := e.rows.set cy (editorRowAppendString row s), dirty := e.dirty + 1 }

/-- editorInsertChar (src/atto.c lines 522-534): append a fresh empty row when
the cursor sits on the virtual row past end of file, insert the byte at the
cursor, advance `cx`. -/
def editorInsertChar (c : Nat) (e : EditorState) : EditorState :=
  let e1 := if e.cy = e.rows.length then editorInsertRow (e.rows.length : Int) [] e else e
  let e2 := editorRowInsertCharE e1.cy (e1.cx : Int) c e1
  { e2 with cx := e2.cx + 1 }

/-- editorInsertNewLine (src/atto.c lines 539-558): at column 0 insert an empty
row above, otherwise split the current row at the cursor; then move to the
start of the next row. -/
def editorInsertNewLine (e : EditorState) : EditorState :=
  let e1 :=
    if e.cx = 0 then
      editorInsertRow (e.cy : Int) [] e
    else
      match e.rows[e.cy]? with
      | none => e
      | some row =>
        let e' := editorInsertRow ((e.cy + 1 : Nat) : Int) (row.chars.drop e.cx) e
        { e' with rows := e'.rows.set e.cy (editorUpdateRow { row with chars := row.chars.take e.cx }) }
  { e1 with cy := e1.cy + 1, cx := 0 }

/-- editorDelChar (src/atto.c lines 563-587): backspace.  Immediate return when
the cursor is past end of file or at the very start of the document; delete the
byte left of the cursor when `cx > 0`; otherwise merge the current row into the
previous one (set `cx` to the previous row's old size first, append, delete,
move up). -/
def editorDelChar (e : EditorState) : EditorState :=
  if e.cy = e.rows.length then e
  else if e.cx = 0 ∧ e.cy = 0 then e
  else
    match e.rows[e.cy]? with
    | none => e
    | some row =>
      if 0 < e.cx then
        let e1 := editorRowDelCharE e.cy ((e.cx - 1 : Nat) : Int) e
        { e1 with cx := e.cx - 1 }
      else
        let e1 := { e with cx := rowLen e (e.cy - 1) }
        let e2 := editorRowAppendStringE (e.cy - 1) row.chars e1
        let e3 := editorDelRow (e.cy : Int) e2
        { e3 with cy := e3.cy - 1 }

/-- editorRowsToString (src/atto.c lines 595-621): every row's raw text
followed by a newline byte (10), concatenated. -/
def editorRowsToString (e : EditorState) : List Nat :=
  (e.rows.map (fun r => r.chars ++ [10])).flatten

/-- The trailing-newline/carriage-return trimming loop of editorOpen
(src/atto.c lines 644-647). -/
def trimEol (line : List Nat) : List Nat :=
  (line.reverse.dropWhile (fun c => c == 10 || c == 13)).reverse

/-- editorOpen (src/atto.c lines 626-655), as a function of the list of lines
`getline` yields (each already split at a newline, terminator included).  Note
the stray first `getline` call on line 639 of the source, whose result is
discarded before the read loop: the first line of the file never becomes a row. -/
def editorOpen (filename : List Nat) (lines : List (List Nat)) (e : EditorState) : EditorState :=
  let e0 := { e with filename := some filename }
  let e1 := (lines.drop 1).foldl
    (fun acc line => editorInsertRow (acc.rows.length : Int) (trimEol line) acc) e0
  { e1 with dirty := 0 }

/-- Outcome of the open/ftruncate/write sequence of editorSave, as reported by
the file-system collaborator; each failure carries the strerror(errno) text. -/
inductive SaveOutcome where
  | ok
  | openFail (err : List Nat)
  | truncFail (err : List Nat)
  | writeFail (err : List Nat)
deriving DecidableEq, Repr

/-- The part of editorSave after a filename is known (src/atto.c lines 673-695):
serialize, attempt the write; on full success clear `dirty` and report the byte
count, on any failure report the I/O error text.  The second component is the
buffer actually written to disk, if any. -/
def saveWithFile (io : SaveOutcome) (e : EditorState) : EditorState × Option (List Nat) :=
  let buf := editorRowsToString e
  match io with
  | SaveOutcome.ok => ({ e with dirty := 0, statusmsg := StatusMsg.bytesWritten buf.length }, some buf)
  | SaveOutcome.openFail err => ({ e with statusmsg := StatusMsg.ioError err }, none)
  | SaveOutcome.truncFail err => ({ e with statusmsg := StatusMsg.ioError err }, none)
  | SaveOutcome.writeFail err => ({ e with statusmsg := StatusMsg.ioError err }, none)

/-- editorSave (src/atto.c lines 660-696).  `promptRes` is the outcome of the
editorPrompt call made when no filename is set (`none` = the user cancelled). -/
def editorSave (promptRes : Option (List Nat)) (io : SaveOutcome) (e : EditorState) :
    EditorState × Option (List Nat) :=
  match e.filename with
  | none =>
    match promptRes with
    | none => ({ e with statusmsg := StatusMsg.saveAborted }, none)
    | some name => saveWithFile io { e with filename := some name }
  | some _ => saveWithFile io e

/-- editorReadKey (src/atto.c lines 206-295), as a function of the first
pending byte and the rest of the pending byte stream.  A `read` that times out
with no byte available is modelled by the stream being exhausted. -/
def editorReadKey (c : Nat) (rest : List Nat) : Nat :=
  if c = 27 then
    match rest with
    | s0 :: s1 :: rest2 =>
      if s0 = 91 then
        if 48 ≤ s1 ∧ s1 ≤ 57 then
          match rest2 with
          | s2 :: _ =>
            if s2 = 126 then
              if s1 = 49 then HOME_KEY
              else if s1 = 51 then DEL_KEY
              else if s1 = 52 then END_KEY
              else if s1 = 53 then PAGE_UP
              else if s1 = 54 then PAGE_DOWN
              else if s1 = 55 then HOME_KEY
              else if s1 = 56 then END_KEY
              else 27
            else 27
          | [] => 27
        else
          if s1 = 65 then ARROW_UP
          else if s1 = 66 then ARROW_DOWN
          else if s1 = 67 then ARROW_RIGHT
          else if s1 = 68 then ARROW_LEFT
          else if s1 = 72 then HOME_KEY
          else if s1 = 70 then END_KEY
          else 27
      else if s0 = 79 then
        if s1 = 72 then HOME_KEY
        else if s1 = 70 then END_KEY
        else 27
      else 27
    | _ => 27
  else c

/-- Result of a run of the editorPrompt loop on a finite key-event stream:
the user cancelled (ESC), submitted a line (ENTER on a non-empty buffer), or
the stream ran out while the loop was still going. -/
inductive PromptResult where
  | cancelled
  | submitted (text : List Nat)
  | pending (buf : List Nat)
deriving DecidableEq, Repr

/-- iscntrl from ctype.h, for the ASCII range the prompt cares about. -/
def iscntrl (c : Nat) : Bool := c < 32 || c == 127

/-- The loop body of editorPrompt (src/atto.c lines 961-1001), as a function of
the current buffer and the remaining decoded key events: DEL/Ctrl-H/BACKSPACE
pop a byte, ESC cancels, ENTER submits a non-empty buffer (and is ignored on an
empty one), printable bytes below 128 are appended, anything else is ignored. -/
def editorPromptLoop : List Nat → List Nat → PromptResult
  | buf, [] => PromptResult.pending buf
  | buf, c :: keys =>
    if c = DEL_KEY ∨ c = CTRL_KEY 104 ∨ c = BACKSPACE then
      editorPromptLoop buf.dropLast keys
    else if c = 27 then PromptResult.cancelled
    else if c = 13 then
      if buf ≠ [] then PromptResult.submitted buf else editorPromptLoop buf keys
    else if ¬ iscntrl c ∧ c < 128 then
      editorPromptLoop (buf ++ [c]) keys
    else editorPromptLoop buf keys

/-- editorPrompt (src/atto.c lines 953-1002): run the loop on an empty buffer. -/
def editorPrompt (keys : List Nat) : PromptResult :=
  editorPromptLoop [] keys

/-- editorMoveCursor (src/atto.c lines 1007-1062): arrow-key movement followed
by the snap of `cx` to the end of the (possibly new) current line. -/
def editorMoveCursor (key : Nat) (e : EditorState) : EditorState :=
  let e1 :=
    if key = ARROW_LEFT then
      if e.cx ≠ 0 then { e with cx := e.cx - 1 }
      else if 0 < e.cy then { e with cy := e.cy - 1, cx := rowLen e (e.cy - 1) }
      else e
    else if key = ARROW_RIGHT then
      match e.rows[e.cy]? with
      | some row =>
        if e.cx < row.chars.length then { e with cx := e.cx + 1 }
        else if e.cx = row.chars.length then { e with cy := e.cy + 1, cx := 0 }
        else e
      | none => e
    else if key = ARROW_UP then
      if e.cy ≠ 0 then { e with cy := e.cy - 1 } else e
    else if key = ARROW_DOWN then
      if e.cy < e.rows.length then { e with cy := e.cy + 1 } else e
    else e
  if rowLen e1 e1.cy < e1.cx then { e1 with cx := rowLen e1 e1.cy } else e1

/-- The `while(times--) editorMoveCursor(...)` loop of the PAGE_UP/PAGE_DOWN
case of editorProcessKeypress. -/
def iterateMove (key : Nat) : Nat → EditorState → EditorState
  | 0, e => e
  | n + 1, e => iterateMove key n (editorMoveCursor key e)

/-- editorProcessKeypress (src/atto.c lines 1067-1164).  Returns `none` when
the key causes the process to exit (Ctrl-Q with no unsaved changes, or with the
confirmation countdown exhausted).  `promptRes`/`io` are the collaborator
outcomes passed through to editorSave for the Ctrl-S case.  The final
`quit_times = ATTO_QUIT_TIMES` assignment of the source runs on every path
except the early return inside the Ctrl-Q case. -/
def editorProcessKeypress (c : Nat) (promptRes : Option (List Nat)) (io : SaveOutcome)
    (e : EditorState) : Option EditorState :=
  if c = CTRL_KEY 113 then
    if e.dirty ≠ 0 ∧ 0 < e.quit_times then
      some { e with statusmsg := StatusMsg.quitWarning e.quit_times,
                    quit_times := e.quit_times - 1 }
    else none
  else
    let e1 :=
      if c = 13 then editorInsertNewLine e
      else if c = CTRL_KEY 115 then (editorSave promptRes io e).1
      else if c = HOME_KEY then { e with cx := 0 }
      else if c = END_KEY then
        if e.cy < e.rows.length then { e with cx := rowLen e e.cy } else e
      else if c = BACKSPACE ∨ c = CTRL_KEY 104 ∨ c = DEL_KEY then
        editorDelChar (if c = DEL_KEY then editorMoveCursor ARROW_RIGHT e else e)
      else if c = PAGE_UP ∨ c = PAGE_DOWN then
        let e' :=
          if c = PAGE_UP then { e with cy := e.rowoff }
          else
            let cy' := e.rowoff + e.screenrows - 1
            { e with cy := if e.rows.length < cy' then e.rows.length else cy' }
        iterateMove (if c = PAGE_UP then ARROW_UP else ARROW_DOWN) e'.screenrows e'
      else if c = ARROW_UP ∨ c = ARROW_DOWN ∨ c = ARROW_LEFT ∨ c = ARROW_RIGHT then
        editorMoveCursor c e
      else if c = CTRL_KEY 108 ∨ c = 27 then e
      else editorInsertChar c e
    some { e1 with quit_times := ATTO_QUIT_TIMES }

/-- One call of the operations named by the cursor-invariant claim: cursor
movement, character insertion at the cursor, backspace at the cursor, raw row
insertion, raw row deletion. -/
inductive EditOp where
  | move (key : Nat)
  | insCh (c : Nat)
  | delCh
  | insRow (atIdx : Int) (s : List Nat)
  | delRow (atIdx : Int)
deriving DecidableEq, Repr

/-- Apply one operation to the editor state. -/
def applyOp (e : EditorState) : EditOp → EditorState
  | EditOp.move key => editorMoveCursor key e
  | EditOp.insCh c => editorInsertChar c e
  | EditOp.delCh => editorDelChar e
  | EditOp.insRow atIdx s => editorInsertRow atIdx s e
  | EditOp.delRow atIdx => editorDelRow atIdx e

/-- Apply a sequence of operations from left to right. -/
def applyOps (e : EditorState) (ops : List EditOp) : EditorState :=
  ops.foldl applyOp e

/-- The cursor invariant of the specification: `0 ≤ cy ≤ rows.count` and
`0 ≤ cx ≤ rowLength(cy)` (the lower bounds are implicit in `Nat`). -/
def cursorInv (e : EditorState) : Prop :=
  e.cy ≤ e.rows.length ∧ e.cx ≤ rowLen e e.cy

instance (e : EditorState) : Decidable (cursorInv e) := by
  unfold cursorInv
  infer_instance

/-- The operations that the amended cursor-invariant claim ranges over: the
cursor-aware operations (movement, insert char, backspace), excluding raw
`insertRow`/`deleteRow`, which do not adjust the cursor. -/
def cursorSafe : EditOp → Bool
  | EditOp.move _ => true
  | EditOp.insCh _ => true
  | EditOp.delCh => true
  | EditOp.insRow _ _ => false
  | EditOp.delRow _ => false

/-! ### Rendering lemmas (claim C2) -/

/-- mkRow fills `render` by the editorUpdateRow loop started at index 0. -/
theorem mkRow_render (t : List Nat) : (mkRow t).render = renderFrom t 0 := rfl

/-- A row without tab bytes renders to itself, from any start column. -/
theorem renderFrom_eq_self {t : List Nat} (h : ∀ c ∈ t, c ≠ 9) :
    ∀ idx, renderFrom t idx = t := by
  induction t with
  | nil => intro idx; rfl
  | cons c cs ih =>
    intro idx
    have hc : c ≠ 9 := h c (List.mem_cons_self c cs)
    simp only [renderFrom, if_neg hc]
    rw [ih (fun x hx => h x (List.mem_cons_of_mem c hx))]

/-- Rendering never shortens a row. -/
theorem renderFrom_length_ge (t : List Nat) :
    ∀ idx, t.length ≤ (renderFrom t idx).length := by
  induction t with
  | nil => intro idx; simp [renderFrom]
  | cons c cs ih =>
    intro idx
    by_cases hc : c = 9
    · subst hc
      simp only [renderFrom, eq_self_iff_true, if_true, List.length_append,
        List.length_replicate, List.length_cons]
      have := ih (idx + (1 + (ATTO_TAB_STOP - (idx + 1) % ATTO_TAB_STOP) % ATTO_TAB_STOP))
      omega
    · simp only [renderFrom, if_neg hc, List.length_cons]
      have := ih (idx + 1)
      omega

/-- The render loop processes a concatenation segment by segment, the second
part starting at the column reached after the first. -/
theorem renderFrom_append (pre suf : List Nat) : ∀ idx,
    renderFrom (pre ++ suf) idx =
      renderFrom pre idx ++ renderFrom suf (idx + (renderFrom pre idx).length) := by
  induction pre with
  | nil => intro idx; simp [renderFrom]
  | cons c cs ih =>
    intro idx
    by_cases hc : c = 9
    · subst hc
      simp only [List.cons_append, renderFrom, eq_self_iff_true, if_true, List.append_eq]
      rw [ih]
      simp only [List.append_assoc, List.length_append, List.length_replicate]
      ring_nf
    · simp only [List.cons_append, renderFrom, if_neg hc, List.append_eq]
      rw [ih]
      simp only [List.cons_append, List.length_cons]
      ring_nf

/-- C2: for every row text `t`, the rendered form produced by editorUpdateRow
equals `t` when `t` has no tab byte; the rendered length is at least the raw
length; and each tab expands to a run of 1 to 4 space bytes that ends exactly
on a column divisible by ATTO_TAB_STOP = 4. -/
theorem render_tab_spec (t : List Nat) :
    ((∀ c ∈ t, c ≠ 9) → (mkRow t).render = t) ∧
    t.length ≤ (mkRow t).render.length ∧
    (∀ pre suf, t = pre ++ 9 :: suf →
      ∃ k, 1 ≤ k ∧ k ≤ ATTO_TAB_STOP ∧
        ((mkRow pre).render.length + k) % ATTO_TAB_STOP = 0 ∧
        (mkRow t).render =
          (mkRow pre).render ++
            (List.replicate k 32 ++ renderFrom suf ((mkRow pre).render.length + k))) := by
  refine ⟨fun h => renderFrom_eq_self h 0, renderFrom_length_ge t 0, ?_⟩
  intro pre suf ht
  subst ht
  rw [mkRow_render, mkRow_render, renderFrom_append pre (9 :: suf) 0]
  rw [Nat.zero_add]
  set L := (renderFrom pre 0).length with hL
  refine ⟨1 + (ATTO_TAB_STOP - (L + 1) % ATTO_TAB_STOP) % ATTO_TAB_STOP, by omega, ?_, ?_, ?_⟩
  · have h4 : (ATTO_TAB_STOP - (L + 1) % ATTO_TAB_STOP) % ATTO_TAB_STOP < ATTO_TAB_STOP :=
      Nat.mod_lt _ (by norm_num [ATTO_TAB_STOP])
    omega
  · simp only [ATTO_TAB_STOP]
    omega
  · simp only [renderFrom, eq_self_iff_true, if_true]

/-- Witness for C2: a tab-free row renders to itself, and the tab in
`[100, 9, 101]` expands to a concrete run of spaces ending at a multiple of 4. -/
theorem render_tab_spec_witness :
    (mkRow [100, 101]).render = [100, 101] ∧
    (∃ k, 1 ≤ k ∧ k ≤ ATTO_TAB_STOP ∧
      ((mkRow [100]).render.length + k) % ATTO_TAB_STOP = 0 ∧
      (mkRow [100, 9, 101]).render =
        (mkRow [100]).render ++
          (List.replicate k 32 ++ renderFrom [101] ((mkRow [100]).render.length + k))) :=
  ⟨(render_tab_spec [100, 101]).1 (by decide),
   (render_tab_spec [100, 9, 101]).2.2 [100] [101] rfl⟩

/-! ### Input decoding (claim C7) -/

/-- The escape-prefixed byte sequences the specification names as recognized:
`[ <digit> ~` for the digits 1/3/4/5/6/7/8, `[` followed by one of A B C D H F,
and `O` followed by H or F. -/
def escRecognized : List Nat → Bool
  | s0 :: s1 :: rest2 =>
    if s0 = 91 then
      if 48 ≤ s1 ∧ s1 ≤ 57 then
        match rest2 with
        | s2 :: _ =>
          s2 == 126 && (s1 == 49 || s1 == 51 || s1 == 52 || s1 == 53 ||
            s1 == 54 || s1 == 55 || s1 == 56)
        | [] => false
      else
        s1 == 65 || s1 == 66 || s1 == 67 || s1 == 68 || s1 == 72 || s1 == 70
    else if s0 = 79 then s1 == 72 || s1 == 70
    else false
  | _ => false

/-- C7: editorReadKey as a function of the pending byte stream.  `ESC [ d ~`
maps digit 1/7 to Home, 3 to Delete, 4/8 to End, 5 to PageUp, 6 to PageDown;
`ESC [` then A/B/C/D maps to Up/Down/Right/Left and H/F to Home/End;
`ESC O` then H/F maps to Home/End; every other escape-prefixed sequence
(including fewer than two following bytes) collapses to the plain escape 27;
a non-escape first byte is returned unchanged. -/
theorem readKey_spec :
    (∀ tl, editorReadKey 27 (91 :: 49 :: 126 :: tl) = HOME_KEY) ∧
    (∀ tl, editorReadKey 27 (91 :: 55 :: 126 :: tl) = HOME_KEY) ∧
    (∀ tl, editorReadKey 27 (91 :: 51 :: 126 :: tl) = DEL_KEY) ∧
    (∀ tl, editorReadKey 27 (91 :: 52 :: 126 :: tl) = END_KEY) ∧
    (∀ tl, editorReadKey 27 (91 :: 56 :: 126 :: tl) = END_KEY) ∧
    (∀ tl, editorReadKey 27 (91 :: 53 :: 126 :: tl) = PAGE_UP) ∧
    (∀ tl, editorReadKey 27 (91 :: 54 :: 126 :: tl) = PAGE_DOWN) ∧
    (∀ tl, editorReadKey 27 (91 :: 65 :: tl) = ARROW_UP) ∧
    (∀ tl, editorReadKey 27 (91 :: 66 :: tl) = ARROW_DOWN) ∧
    (∀ tl, editorReadKey 27 (91 :: 67 :: tl) = ARROW_RIGHT) ∧
    (∀ tl, editorReadKey 27 (91 :: 68 :: tl) = ARROW_LEFT) ∧
    (∀ tl, editorReadKey 27 (91 :: 72 :: tl) = HOME_KEY) ∧
    (∀ tl, editorReadKey 27 (91 :: 70 :: tl) = END_KEY) ∧
    (∀ tl, editorReadKey 27 (79 :: 72 :: tl) = HOME_KEY) ∧
    (∀ tl, editorReadKey 27 (79 :: 70 :: tl) = END_KEY) ∧
    (∀ rest, escRecognized rest = false → editorReadKey 27 rest = 27) ∧
    (∀ c rest, c ≠ 27 → editorReadKey c rest = c) := by
  refine ⟨fun tl => rfl, fun tl => rfl, fun tl => rfl, fun tl => rfl, fun tl => rfl,
    fun tl => rfl, fun tl => rfl, fun tl => rfl, fun tl => rfl, fun tl => rfl,
    fun tl => rfl, fun tl => rfl, fun tl => rfl, fun tl => rfl, fun tl => rfl, ?_, ?_⟩
  · intro rest h
    rcases rest with _ | ⟨s0, _ | ⟨s1, rest2⟩⟩
    · rfl
    · rfl
    · by_cases h0 : s0 = 91
      · subst h0
        by_cases hd : 48 ≤ s1 ∧ s1 ≤ 57
        · rcases rest2 with _ | ⟨s2, rest3⟩
          · simp only [editorReadKey, eq_self_iff_true, if_true, if_pos hd]
          · simp only [escRecognized, eq_self_iff_true, if_true, if_pos hd] at h
            simp only [editorReadKey, eq_self_iff_true, if_true, if_pos hd]
            split_ifs <;> simp_all
        · simp only [escRecognized, eq_self_iff_true, if_true, if_neg hd] at h
          simp only [editorReadKey, eq_self_iff_true, if_true, if_neg hd]
          split_ifs <;> simp_all
      · by_cases h79 : s0 = 79
        · subst h79
          simp only [escRecognized, if_neg h0, eq_self_iff_true, if_true] at h
          simp only [editorReadKey, eq_self_iff_true, if_true, if_neg h0]
          split_ifs <;> simp_all
        · simp only [editorReadKey, eq_self_iff_true, if_true, if_neg h0, if_neg h79]
  · intro c rest hc
    simp only [editorReadKey, if_neg hc]

/-- Witness for C7 at concrete streams: a full Home sequence, an unrecognized
escape sequence, and a plain byte. -/
theorem readKey_spec_witness :
    editorReadKey 27 [91, 49, 126] = HOME_KEY ∧
    editorReadKey 27 [91, 90] = 27 ∧
    editorReadKey 113 [91, 49] = 113 :=
  ⟨readKey_spec.1 [], readKey_spec.2.2.2.2.2.2.2.2.2.2.2.2.2.2.2.1 [91, 90] (by decide),
   readKey_spec.2.2.2.2.2.2.2.2.2.2.2.2.2.2.2.2 113 [91, 49] (by decide)⟩

/-! ### Prompt mode (claim C9) -/

/-- A prompt run submits only non-empty text, and only after an ENTER (13)
key event. -/
theorem promptLoop_submitted (keys : List Nat) : ∀ buf s,
    editorPromptLoop buf keys = PromptResult.submitted s → s ≠ [] ∧ 13 ∈ keys := by
  induction keys with
  | nil => intro buf s h; simp [editorPromptLoop] at h
  | cons c ks ih =>
    intro buf s h
    simp only [editorPromptLoop] at h
    split_ifs at h with h1 h2 h3 h4 h5
    all_goals first
      | exact ⟨(ih _ _ h).1, List.mem_cons_of_mem c (ih _ _ h).2⟩
      | (injection h with hbs; subst hbs; subst h3;
         exact ⟨h4, List.mem_cons_self 13 ks⟩)

/-- A prompt run is cancelled only after an ESC (27) key event. -/
theorem promptLoop_cancelled (keys : List Nat) : ∀ buf,
    editorPromptLoop buf keys = PromptResult.cancelled → 27 ∈ keys := by
  induction keys with
  | nil => intro buf h; simp [editorPromptLoop] at h
  | cons c ks ih =>
    intro buf h
    simp only [editorPromptLoop] at h
    split_ifs at h with h1 h2 h3 h4 h5
    all_goals first
      | exact List.mem_cons_of_mem c (ih _ h)
      | (rw [h2]; exact List.mem_cons_self 27 ks)

/-- C9: the prompt never returns the empty string; it returns NULL exactly on
ESC (an ESC key cancels at once, and a cancelled run contains an ESC); ENTER
submits exactly the non-empty collected buffer; ENTER on an empty buffer is
ignored and the loop continues. -/
theorem prompt_spec :
    (∀ keys s, editorPrompt keys = PromptResult.submitted s → s ≠ [] ∧ 13 ∈ keys) ∧
    (∀ buf keys s, editorPromptLoop buf keys = PromptResult.submitted s → s ≠ []) ∧
    (∀ buf keys, editorPromptLoop buf (27 :: keys) = PromptResult.cancelled) ∧
    (∀ buf keys, editorPromptLoop buf keys = PromptResult.cancelled → 27 ∈ keys) ∧
    (∀ buf keys, buf ≠ [] → editorPromptLoop buf (13 :: keys) = PromptResult.submitted buf) ∧
    (∀ keys, editorPromptLoop [] (13 :: keys) = editorPromptLoop [] keys) := by
  refine ⟨fun keys s h => promptLoop_submitted keys [] s h,
    fun buf keys s h => (promptLoop_submitted keys buf s h).1,
    ?_, fun buf keys h => promptLoop_cancelled keys buf h, ?_, ?_⟩
  · intro buf keys
    simp [editorPromptLoop, DEL_KEY, CTRL_KEY, BACKSPACE, show (104 &&& 31 : Nat) = 8 from rfl]
  · intro buf keys hbuf
    simp [editorPromptLoop, DEL_KEY, CTRL_KEY, BACKSPACE, hbuf,
      show (104 &&& 31 : Nat) = 8 from rfl]
  · intro keys
    simp [editorPromptLoop, DEL_KEY, CTRL_KEY, BACKSPACE, show (104 &&& 31 : Nat) = 8 from rfl]

/-- Witness for C9 at concrete key streams. -/
theorem prompt_spec_witness :
    ([97] ≠ [] ∧ 13 ∈ [97, 13]) ∧
    editorPromptLoop [] [27, 13] = PromptResult.cancelled ∧
    editorPromptLoop [97] [13] = PromptResult.submitted [97] ∧
    editorPromptLoop [] [13, 97] = editorPromptLoop [] [97] :=
  ⟨prompt_spec.1 [97, 13] [97] (by decide),
   prompt_spec.2.2.1 [] [13],
   prompt_spec.2.2.2.2.1 [97] [] (by decide),
   prompt_spec.2.2.2.2.2 [97]⟩

/-! ### Silent out-of-range policy (claim C10) -/

/-- C10: an out-of-range insertRow/deleteRow/row-deleteChar leaves the entire
editor state unchanged, `dirty` included; when the index is in range the rows
do change and `dirty` is incremented by exactly one. -/
theorem silent_clamp_spec :
    (∀ (e : EditorState) (atIdx : Int) (s : List Nat),
       (atIdx < 0 ∨ (e.rows.length : Int) < atIdx) → editorInsertRow atIdx s e = e) ∧
    (∀ (e : EditorState) (atIdx : Int),
       (atIdx < 0 ∨ (e.rows.length : Int) ≤ atIdx) → editorDelRow atIdx e = e) ∧
    (∀ (e : EditorState) (cy : Nat) (row : Erow) (atIdx : Int), e.rows[cy]? = some row →
       (atIdx < 0 ∨ (row.chars.length : Int) ≤ atIdx) → editorRowDelCharE cy atIdx e = e) ∧
    (∀ (e : EditorState) (atIdx : Int) (s : List Nat), 0 ≤ atIdx → atIdx ≤ (e.rows.length : Int) →
       (editorInsertRow atIdx s e).dirty = e.dirty + 1 ∧
       (editorInsertRow atIdx s e).rows ≠ e.rows) ∧
    (∀ (e : EditorState) (atIdx : Int), 0 ≤ atIdx → atIdx < (e.rows.length : Int) →
       (editorDelRow atIdx e).dirty = e.dirty + 1 ∧ (editorDelRow atIdx e).rows ≠ e.rows) ∧
    (∀ (e : EditorState) (cy : Nat) (row : Erow) (atIdx : Int), e.rows[cy]? = some row →
       0 ≤ atIdx → atIdx < (row.chars.length : Int) →
       (editorRowDelCharE cy atIdx e).dirty = e.dirty + 1 ∧
       (editorRowDelCharE cy atIdx e).rows ≠ e.rows) := by
  refine ⟨?_, ?_, ?_, ?_, ?_, ?_⟩
  · intro e a s h
    unfold editorInsertRow
    rw [if_pos h]
  · intro e a h
    unfold editorDelRow
    rw [if_pos h]
  · intro e cy row a hrow h
    simp only [editorRowDelCharE, hrow]
    rw [if_pos h]
  · intro e a s h0 h1
    unfold editorInsertRow
    rw [if_neg (by omega)]
    refine ⟨rfl, ?_⟩
    intro heq
    have hlen : (e.rows.insertIdx a.toNat (mkRow s)).length = e.rows.length + 1 :=
      List.length_insertIdx a.toNat e.rows (by omega)
    have := congrArg List.length heq
    simp only at this
    omega
  · intro e a h0 h1
    unfold editorDelRow
    rw [if_neg (by omega)]
    refine ⟨rfl, ?_⟩
    intro heq
    have := congrArg List.length heq
    rw [List.length_eraseIdx] at this
    rw [if_pos (by omega : a.toNat < e.rows.length)] at this
    omega
  · intro e cy row a hrow h0 h1
    simp only [editorRowDelCharE, hrow]
    rw [if_neg (by omega)]
    refine ⟨rfl, ?_⟩
    intro heq
    have hcy : cy < e.rows.length := (List.getElem?_eq_some.mp hrow).1
    have hset : (e.rows.set cy (editorRowDelChar row a))[cy]? = some (editorRowDelChar row a) :=
      List.getElem?_set_self (by simpa using hcy)
    have heq' : e.rows.set cy (editorRowDelChar row a) = e.rows := heq
    rw [heq', hrow] at hset
    have hrr : editorRowDelChar row a = row := (Option.some_inj.mp hset).symm
    have hch := congrArg Erow.chars hrr
    unfold editorRowDelChar at hch
    rw [if_neg (by omega)] at hch
    have := congrArg List.length hch
    simp only [editorUpdateRow, List.length_eraseIdx] at this
    rw [if_pos (by omega : a.toNat < row.chars.length)] at this
    omega

/-- Witness for C10: a negative index, a too-large index, and an in-range
index on a one-row document. -/
theorem silent_clamp_spec_witness :
    editorInsertRow (-1) [97] { initEditor 24 80 with rows := [mkRow [97]] } =
      { initEditor 24 80 with rows := [mkRow [97]] } ∧
    editorDelRow 5 { initEditor 24 80 with rows := [mkRow [97]] } =
      { initEditor 24 80 with rows := [mkRow [97]] } ∧
    editorRowDelCharE 0 1 { initEditor 24 80 with rows := [mkRow [97]] } =
      { initEditor 24 80 with rows := [mkRow [97]] } ∧
    (editorDelRow 0 { initEditor 24 80 with rows := [mkRow [97]] }).dirty = 1 :=
  ⟨silent_clamp_spec.1 _ (-1) [97] (Or.inl (by decide)),
   silent_clamp_spec.2.1 _ 5 (Or.inr (by decide)),
   silent_clamp_spec.2.2.1 _ 0 (mkRow [97]) 1 (by decide) (Or.inr (by decide)),
   (silent_clamp_spec.2.2.2.2.1 _ 0 (by decide) (by decide)).1⟩

/-! ### Saving (claim C6) -/

/-- C6: with a filename, a fully successful save resets `dirty` to 0, reports
the byte count written, and writes exactly the serialized buffer; any
open/truncate/write failure reports the I/O error text and leaves rows and
`dirty` (and everything else) unchanged, writing nothing; with no filename, a
cancelled prompt writes nothing and reports the abort; a filename collected
from the prompt behaves like a present filename. -/
theorem save_spec :
    (∀ (e : EditorState) (pr : Option (List Nat)) (f : List Nat), e.filename = some f →
       editorSave pr SaveOutcome.ok e =
         ({ e with dirty := 0,
                   statusmsg := StatusMsg.bytesWritten (editorRowsToString e).length },
          some (editorRowsToString e))) ∧
    (∀ (e : EditorState) (pr : Option (List Nat)) (f err : List Nat) (io : SaveOutcome),
       e.filename = some f →
       (io = SaveOutcome.openFail err ∨ io = SaveOutcome.truncFail err ∨ io = SaveOutcome.writeFail err) →
       editorSave pr io e = ({ e with statusmsg := StatusMsg.ioError err }, none)) ∧
    (∀ (e : EditorState) (io : SaveOutcome), e.filename = none →
       editorSave none io e = ({ e with statusmsg := StatusMsg.saveAborted }, none)) ∧
    (∀ (e : EditorState) (name : List Nat), e.filename = none →
       editorSave (some name) SaveOutcome.ok e =
         ({ e with filename := some name, dirty := 0,
                   statusmsg := StatusMsg.bytesWritten (editorRowsToString e).length },
          some (editorRowsToString e))) ∧
    (∀ (e : EditorState) (name err : List Nat) (io : SaveOutcome), e.filename = none →
       (io = SaveOutcome.openFail err ∨ io = SaveOutcome.truncFail err ∨ io = SaveOutcome.writeFail err) →
       editorSave (some name) io e =
         ({ e with filename := some name, statusmsg := StatusMsg.ioError err }, none)) := by
  refine ⟨?_, ?_, ?_, ?_, ?_⟩
  · intro e pr f hf
    simp [editorSave, hf, saveWithFile]
  · intro e pr f err io hf hio
    rcases hio with rfl | rfl | rfl <;> simp [editorSave, hf, saveWithFile]
  · intro e io hf
    simp [editorSave, hf]
  · intro e name hf
    simp [editorSave, hf, saveWithFile, editorRowsToString]
  · intro e name err io hf hio
    rcases hio with rfl | rfl | rfl <;> simp [editorSave, hf, saveWithFile]

/-- Witness for C6 on a concrete two-row dirty document. -/
theorem save_spec_witness :
    editorSave none SaveOutcome.ok
        { initEditor 24 80 with rows := [mkRow [97, 98], mkRow [99, 100]],
                                dirty := 3, filename := some [102] } =
      ({ initEditor 24 80 with rows := [mkRow [97, 98], mkRow [99, 100]],
                               dirty := 0, filename := some [102],
                               statusmsg := StatusMsg.bytesWritten 6 },
       some [97, 98, 10, 99, 100, 10]) ∧
    editorSave none (SaveOutcome.writeFail [69]) 
        { initEditor 24 80 with rows := [mkRow [97, 98]], dirty := 3, filename := some [102] } =
      ({ initEditor 24 80 with rows := [mkRow [97, 98]], dirty := 3, filename := some [102],
                               statusmsg := StatusMsg.ioError [69] }, none) ∧
    editorSave none SaveOutcome.ok { initEditor 24 80 with dirty := 3 } =
      ({ initEditor 24 80 with dirty := 3, statusmsg := StatusMsg.saveAborted }, none) := by
  refine ⟨?_, ?_, ?_⟩
  · have h := save_spec.1
      { initEditor 24 80 with rows := [mkRow [97, 98], mkRow [99, 100]],
                              dirty := 3, filename := some [102] } none [102] rfl
    rw [h]; decide
  · have h := save_spec.2.1
      { initEditor 24 80 with rows := [mkRow [97, 98]], dirty := 3, filename := some [102] }
      none [102] [69] (SaveOutcome.writeFail [69]) rfl (Or.inr (Or.inr rfl))
    rw [h]
  · exact save_spec.2.2.1 { initEditor 24 80 with dirty := 3 } SaveOutcome.ok rfl

/-! ### Quit confirmation (claim C5) -/

/-- C5: the confirmation countdown starts at ATTO_QUIT_TIMES = 2; with unsaved
changes a quit press while the countdown is positive only shows the warning
message and decrements the countdown (the process keeps running); with unsaved
changes the process exits exactly when the countdown is exhausted; every
non-quit key resets the countdown to its initial value in the state it
produces. -/
theorem quit_countdown_spec :
    ATTO_QUIT_TIMES = 2 ∧
    (∀ wsRows wsCols, (initEditor wsRows wsCols).quit_times = ATTO_QUIT_TIMES) ∧
    (∀ (e : EditorState) (pr : Option (List Nat)) (io : SaveOutcome),
       e.dirty ≠ 0 → 0 < e.quit_times →
       editorProcessKeypress (CTRL_KEY 113) pr io e =
         some { e with statusmsg := StatusMsg.quitWarning e.quit_times,
                       quit_times := e.quit_times - 1 }) ∧
    (∀ (e : EditorState) (pr : Option (List Nat)) (io : SaveOutcome), e.dirty ≠ 0 →
       (editorProcessKeypress (CTRL_KEY 113) pr io e = none ↔ e.quit_times = 0)) ∧
    (∀ (c : Nat) (e e' : EditorState) (pr : Option (List Nat)) (io : SaveOutcome),
       c ≠ CTRL_KEY 113 → editorProcessKeypress c pr io e = some e' →
       e'.quit_times = ATTO_QUIT_TIMES) := by
  refine ⟨rfl, fun _ _ => rfl, ?_, ?_, ?_⟩
  · intro e pr io h1 h2
    simp only [editorProcessKeypress, eq_self_iff_true, if_true]
    rw [if_pos ⟨h1, h2⟩]
  · intro e pr io h1
    simp only [editorProcessKeypress, eq_self_iff_true, if_true]
    split_ifs with h
    · simp only [reduceCtorEq, false_iff]
      omega
    · simp only [eq_self_iff_true, true_iff]
      omega
  · intro c e e' pr io hc h
    simp only [editorProcessKeypress, if_neg hc] at h
    injection h with h
    rw [← h]

/-- Witness for C5: from a dirty initial state the first and second quit
presses keep running while decrementing, the third exits, and an interleaved
printable key resets the countdown. -/
theorem quit_countdown_spec_witness :
    editorProcessKeypress (CTRL_KEY 113) none SaveOutcome.ok
        { initEditor 24 80 with dirty := 1 } =
      some { initEditor 24 80 with dirty := 1, statusmsg := StatusMsg.quitWarning 2, quit_times := 1 } ∧
    (editorProcessKeypress (CTRL_KEY 113) none SaveOutcome.ok
        { initEditor 24 80 with dirty := 1, quit_times := 0 } = none ↔ (0 : Nat) = 0) ∧
    ∀ e', editorProcessKeypress 120 none SaveOutcome.ok
        { initEditor 24 80 with dirty := 1, quit_times := 1 } = some e' →
      e'.quit_times = ATTO_QUIT_TIMES := by
  refine ⟨?_, ?_, ?_⟩
  · have h := quit_countdown_spec.2.2.1 { initEditor 24 80 with dirty := 1 }
      none SaveOutcome.ok (by decide) (by decide)
    rw [h]
    decide
  · exact quit_countdown_spec.2.2.2.1
      { initEditor 24 80 with dirty := 1, quit_times := 0 } none SaveOutcome.ok (by decide)
  · intro e' h
    exact quit_countdown_spec.2.2.2.2 120 _ e' none SaveOutcome.ok (by decide) h

/-! ### Load/serialize round trip (claim C1) -/

/-- The serialization the round-trip claim describes: the input lines joined
with a newline byte (10) after each line, the last included. -/
def specJoinLines (lines : List (List Nat)) : List Nat :=
  (lines.map (fun l => l ++ [10])).flatten

/-- The serialized buffer is every row's text plus one newline byte per row,
so its length is the sum of the row lengths plus one per row. -/
theorem rowsToString_length (e : EditorState) :
    (editorRowsToString e).length = (e.rows.map (fun r => r.chars.length + 1)).sum := by
  unfold editorRowsToString
  induction e.rows with
  | nil => rfl
  | cons r rs ih =>
    simp only [List.map_cons, List.flatten_cons, List.length_append, List.sum_cons, ih,
      List.length_cons, List.length_nil]

/-- C1 fails on the code: editorOpen discards the first line yielded by
getline (the stray call on src/atto.c line 639), so opening a one-line file
containing the line 97 ('a') loads zero rows and serializes to the empty
buffer, not to the line followed by a newline as the claim requires. -/
theorem editorOpen_drops_first_line :
    (editorOpen [102] [[97, 10]] (initEditor 24 80)).rows = [] ∧
    editorRowsToString (editorOpen [102] [[97, 10]] (initEditor 24 80)) = [] ∧
    specJoinLines [[97]] = [97, 10] ∧
    editorRowsToString (editorOpen [102] [[97, 10]] (initEditor 24 80)) ≠
      specJoinLines [[97]] := by
  refine ⟨rfl, rfl, rfl, ?_⟩
  decide

/-- The two-line file behaves the same way: only the second line survives. -/
theorem editorOpen_drops_first_line_two :
    (editorOpen [102] [[97, 10], [98, 99, 10]] (initEditor 24 80)).rows.map Erow.chars =
      [[98, 99]] ∧
    editorRowsToString (editorOpen [102] [[97, 10], [98, 99, 10]] (initEditor 24 80)) =
      [98, 99, 10] := by
  exact ⟨rfl, rfl⟩

/-! ### Row insert/delete inverse (claim C8) -/

/-- C8 as stated is false: at the out-of-range column 3 of the two-byte row
97 98, editorRowInsertChar clamps the insertion to the row end but
editorRowDelChar silently ignores the deletion, so the row is not restored. -/
theorem rowInsertDelete_not_inverse_out_of_range :
    (editorRowDelChar (editorRowInsertChar (mkRow [97, 98]) 3 120) 3).chars = [97, 98, 120] ∧
    (editorRowDelChar (editorRowInsertChar (mkRow [97, 98]) 3 120) 3).chars ≠
      (mkRow [97, 98]).chars := by
  exact ⟨rfl, by decide⟩

/-- C8 (amended): for a column within [0, row length] — every column at which
an insertion actually happens at that column — inserting a byte with
editorRowInsertChar and deleting at the same column with editorRowDelChar
restores the row's prior raw content exactly. -/
theorem rowInsertDelete_inverse (row : Erow) (b : Nat) (col : Int)
    (h0 : 0 ≤ col) (h1 : col ≤ (row.chars.length : Int)) :
    (editorRowDelChar (editorRowInsertChar row col b) col).chars = row.chars := by
  have hlen : (row.chars.insertIdx col.toNat b).length = row.chars.length + 1 :=
    List.length_insertIdx col.toNat row.chars (by omega)
  simp only [editorRowInsertChar, editorRowDelChar, editorUpdateRow]
  rw [if_neg (by omega : ¬(col < 0 ∨ col > (row.chars.length : Int)))]
  rw [if_neg (by simp only [hlen]; omega)]
  simp only [List.eraseIdx_insertIdx]

/-- Witness for C8 (amended) at an in-range column. -/
theorem rowInsertDelete_inverse_witness :
    (editorRowDelChar (editorRowInsertChar (mkRow [97, 98]) 1 120) 1).chars =
      (mkRow [97, 98]).chars :=
  rowInsertDelete_inverse (mkRow [97, 98]) 120 1 (by decide) (by decide)

/-! ### Cursor-invariant machinery (claims C3 and C4) -/

/-- Entries strictly before the erased index are unchanged. -/
theorem eraseIdx_getElem?_lt {α : Type} (l : List α) {i j : Nat} (h : j < i) :
    (l.eraseIdx i)[j]? = l[j]? := by
  rw [List.eraseIdx_eq_take_drop_succ, List.getElem?_append]
  have htake : (l.take i).length = min i l.length := List.length_take i l
  split_ifs with hj
  · exact List.getElem?_take_of_lt h
  · have hlen : l.length ≤ j := by omega
    have h1 : l[j]? = none := List.getElem?_eq_none hlen
    have h2 : (l.drop (i + 1))[j - (l.take i).length]? = none := by
      apply List.getElem?_eq_none
      rw [List.length_drop]
      omega
    rw [h1, h2]

/-- rowLen reads the row list. -/
theorem rowLen_of_some {e : EditorState} {cy : Nat} {r : Erow} (h : e.rows[cy]? = some r) :
    rowLen e cy = r.chars.length := by
  unfold rowLen
  rw [h]

/-- Past the last row the rowLen is 0. -/
theorem rowLen_of_ge {e : EditorState} {cy : Nat} (h : e.rows.length ≤ cy) :
    rowLen e cy = 0 := by
  unfold rowLen
  rw [List.getElem?_eq_none h]

/-- A row index below the count always yields a row. -/
theorem exists_row_of_lt {e : EditorState} {cy : Nat} (h : cy < e.rows.length) :
    ∃ row, e.rows[cy]? = some row :=
  ⟨e.rows[cy], List.getElem?_eq_getElem h⟩

/-- editorRowInsertChar always grows the raw text by exactly one byte: the
insertion position is clamped into range before the splice. -/
theorem editorRowInsertChar_length (row : Erow) (atIdx : Int) (c : Nat) :
    (editorRowInsertChar row atIdx c).chars.length = row.chars.length + 1 := by
  simp only [editorRowInsertChar, editorUpdateRow]
  split_ifs with hc
  · exact List.length_insertIdx _ _ (Nat.le_refl _)
  · exact List.length_insertIdx _ _ (by omega)

/-- The final snap of editorMoveCursor re-establishes the cursor invariant as
long as the row index is in range. -/
theorem snap_inv (e1 : EditorState) (hcy : e1.cy ≤ e1.rows.length) :
    cursorInv (if rowLen e1 e1.cy < e1.cx then { e1 with cx := rowLen e1 e1.cy } else e1) := by
  split_ifs with hlt
  · exact ⟨hcy, Nat.le_refl _⟩
  · exact ⟨hcy, Nat.le_of_not_lt hlt⟩

/-- editorMoveCursor preserves the cursor invariant, for every key. -/
theorem cursorInv_moveCursor (key : Nat) (e : EditorState) (h : cursorInv e) :
    cursorInv (editorMoveCursor key e) := by
  have hcy : e.cy ≤ e.rows.length := h.1
  unfold editorMoveCursor
  refine snap_inv _ ?_
  by_cases hL : key = ARROW_LEFT
  · rw [if_pos hL]
    split_ifs with h1 h2
    · exact hcy
    · show e.cy - 1 ≤ e.rows.length
      omega
    · exact hcy
  · rw [if_neg hL]
    by_cases hR : key = ARROW_RIGHT
    · rw [if_pos hR]
      cases hrow : e.rows[e.cy]? with
      | none => simp only [hrow]; exact hcy
      | some row =>
        have hlt : e.cy < e.rows.length := (List.getElem?_eq_some.mp hrow).1
        simp only [hrow]
        split_ifs with h1 h2
        · exact hcy
        · show e.cy + 1 ≤ e.rows.length
          omega
        · exact hcy
    · rw [if_neg hR]
      by_cases hU : key = ARROW_UP
      · rw [if_pos hU]
        split_ifs with h1
        · show e.cy - 1 ≤ e.rows.length
          omega
        · exact hcy
      · rw [if_neg hU]
        by_cases hD : key = ARROW_DOWN
        · rw [if_pos hD]
          split_ifs with h1
          · show e.cy + 1 ≤ e.rows.length
            omega
          · exact hcy
        · rw [if_neg hD]
          exact hcy

/-- Exact effect of editorInsertChar: on the virtual row past end of file a
fresh empty row is appended first (two dirty increments), otherwise the byte
goes into the existing current row (one dirty increment); either way the
cursor advances one column. -/
theorem editorInsertChar_cases (c : Nat) (e : EditorState) :
    (e.cy = e.rows.length →
      editorInsertChar c e =
        { e with rows := (e.rows.insertIdx e.rows.length (mkRow [])).set e.cy
                   (editorRowInsertChar (mkRow []) (e.cx : Int) c),
                 cx := e.cx + 1, dirty := e.dirty + 2 }) ∧
    (∀ row, e.rows[e.cy]? = some row →
      editorInsertChar c e =
        { e with rows := e.rows.set e.cy (editorRowInsertChar row (e.cx : Int) c),
                 cx := e.cx + 1, dirty := e.dirty + 1 }) := by
  constructor
  · intro hcy
    have hget : (e.rows.insertIdx e.rows.length (mkRow []))[e.cy]? = some (mkRow []) := by
      rw [List.insertIdx_length_self, hcy, List.getElem?_concat_length]
    unfold editorInsertChar
    rw [if_pos hcy]
    unfold editorInsertRow
    rw [if_neg (by omega : ¬((e.rows.length : Int) < 0 ∨ (e.rows.length : Int) > (e.rows.length : Int)))]
    unfold editorRowInsertCharE
    simp only [Int.toNat_natCast, hget]
  · intro row hrow
    have hne : e.cy ≠ e.rows.length := by
      have := (List.getElem?_eq_some.mp hrow).1
      omega
    unfold editorInsertChar
    rw [if_neg hne]
    unfold editorRowInsertCharE
    simp only [hrow]

/-- Exact effect of editorDelChar under the cursor invariant: a no-op past end
of file and at the document start; a one-byte deletion before the cursor when
`cx > 0`; a merge of the current row into the previous one when `cx = 0` and
`cy > 0`. -/
theorem editorDelChar_cases (e : EditorState) (hInv : cursorInv e) :
    (e.cy = e.rows.length → editorDelChar e = e) ∧
    (e.cx = 0 → e.cy = 0 → editorDelChar e = e) ∧
    (∀ row, e.rows[e.cy]? = some row → 0 < e.cx →
      editorDelChar e =
        { e with rows := e.rows.set e.cy
                   (editorUpdateRow { row with chars := row.chars.eraseIdx (e.cx - 1) }),
                 cx := e.cx - 1, dirty := e.dirty + 1 }) ∧
    (∀ row prev, e.rows[e.cy]? = some row → e.rows[e.cy - 1]? = some prev →
      e.cx = 0 → 0 < e.cy →
      editorDelChar e =
        { e with rows := (e.rows.set (e.cy - 1)
                   (editorUpdateRow { prev with chars := prev.chars ++ row.chars })).eraseIdx e.cy,
                 cy := e.cy - 1, cx := prev.chars.length, dirty := e.dirty + 2 }) := by
  refine ⟨?_, ?_, ?_, ?_⟩
  · intro hcy
    unfold editorDelChar
    rw [if_pos hcy]
  · intro hx hy
    unfold editorDelChar
    by_cases h : e.cy = e.rows.length
    · rw [if_pos h]
    · rw [if_neg h, if_pos ⟨hx, hy⟩]
  · intro row hrow hx
    have hlt : e.cy < e.rows.length := (List.getElem?_eq_some.mp hrow).1
    have hcx : e.cx ≤ row.chars.length := by
      have := hInv.2
      rwa [rowLen_of_some hrow] at this
    unfold editorDelChar
    rw [if_neg (by omega), if_neg (by omega : ¬(e.cx = 0 ∧ e.cy = 0))]
    simp only [hrow]
    rw [if_pos hx]
    unfold editorRowDelCharE
    simp only [hrow]
    rw [if_neg (by omega : ¬(((e.cx - 1 : Nat) : Int) < 0 ∨ ((e.cx - 1 : Nat) : Int) ≥ (row.chars.length : Int)))]
    unfold editorRowDelChar
    rw [if_neg (by omega : ¬(((e.cx - 1 : Nat) : Int) < 0 ∨ ((e.cx - 1 : Nat) : Int) ≥ (row.chars.length : Int)))]
    simp only [Int.toNat_natCast]
  · intro row prev hrow hprev hx hy
    have hlt : e.cy < e.rows.length := (List.getElem?_eq_some.mp hrow).1
    unfold editorDelChar
    rw [if_neg (by omega), if_neg (by omega : ¬(e.cx = 0 ∧ e.cy = 0))]
    simp only [hrow]
    rw [if_neg (by omega : ¬0 < e.cx)]
    rw [rowLen_of_some hprev]
    unfold editorRowAppendStringE
    simp only [hprev]
    unfold editorDelRow
    rw [if_neg (by rw [List.length_set]; omega :
      ¬((e.cy : Int) < 0 ∨ (e.cy : Int) ≥ ((e.rows.set (e.cy - 1) (editorRowAppendString prev row.chars)).length : Int)))]
    simp only [Int.toNat_natCast]
    rfl

/-- editorInsertChar preserves the cursor invariant. -/
theorem cursorInv_insertChar (c : Nat) (e : EditorState) (h : cursorInv e) :
    cursorInv (editorInsertChar c e) := by
  by_cases hcy : e.cy = e.rows.length
  · have hcx : e.cx = 0 := by
      have h2 := h.2
      rw [rowLen_of_ge (Nat.le_of_eq hcy.symm)] at h2
      omega
    rw [(editorInsertChar_cases c e).1 hcy]
    have hlen : (e.rows.insertIdx e.rows.length (mkRow [])).length = e.rows.length + 1 :=
      List.length_insertIdx _ _ (Nat.le_refl _)
    have hget : ((e.rows.insertIdx e.rows.length (mkRow [])).set e.cy
        (editorRowInsertChar (mkRow []) (e.cx : Int) c))[e.cy]? =
        some (editorRowInsertChar (mkRow []) (e.cx : Int) c) :=
      List.getElem?_set_self (by omega)
    constructor
    · simp only [List.length_set, hlen]
      omega
    · unfold rowLen
      simp only [hget, editorRowInsertChar_length]
      have hmk : (mkRow []).chars.length = 0 := rfl
      omega
  · have hlt : e.cy < e.rows.length := lt_of_le_of_ne h.1 hcy
    obtain ⟨row, hrow⟩ := exists_row_of_lt hlt
    have hcx : e.cx ≤ row.chars.length := by
      have h2 := h.2
      rwa [rowLen_of_some hrow] at h2
    rw [(editorInsertChar_cases c e).2 row hrow]
    have hget : (e.rows.set e.cy (editorRowInsertChar row (e.cx : Int) c))[e.cy]? =
        some (editorRowInsertChar row (e.cx : Int) c) :=
      List.getElem?_set_self hlt
    constructor
    · simp only [List.length_set]
      omega
    · unfold rowLen
      simp only [hget, editorRowInsertChar_length]
      omega

/-- editorDelChar preserves the cursor invariant. -/
theorem cursorInv_delChar (e : EditorState) (h : cursorInv e) :
    cursorInv (editorDelChar e) := by
  by_cases hcy : e.cy = e.rows.length
  · rw [(editorDelChar_cases e h).1 hcy]
    exact h
  · have hlt : e.cy < e.rows.length := lt_of_le_of_ne h.1 hcy
    obtain ⟨row, hrow⟩ := exists_row_of_lt hlt
    have hcx : e.cx ≤ row.chars.length := by
      have h2 := h.2
      rwa [rowLen_of_some hrow] at h2
    by_cases hx : 0 < e.cx
    · rw [(editorDelChar_cases e h).2.2.1 row hrow hx]
      have hget : (e.rows.set e.cy
          (editorUpdateRow { row with chars := row.chars.eraseIdx (e.cx - 1) }))[e.cy]? =
          some (editorUpdateRow { row with chars := row.chars.eraseIdx (e.cx - 1) }) :=
        List.getElem?_set_self hlt
      constructor
      · simp only [List.length_set]
        omega
      · unfold rowLen
        simp only [hget]
        show e.cx - 1 ≤
          (editorUpdateRow { row with chars := row.chars.eraseIdx (e.cx - 1) }).chars.length
        simp only [editorUpdateRow]
        rw [List.length_eraseIdx, if_pos (by omega : e.cx - 1 < row.chars.length)]
        omega
    · by_cases hy : 0 < e.cy
      · have hprevlt : e.cy - 1 < e.rows.length := by omega
        obtain ⟨prev, hprev⟩ := exists_row_of_lt hprevlt
        rw [(editorDelChar_cases e h).2.2.2 row prev hrow hprev (by omega) hy]
        have hsetlen : (e.rows.set (e.cy - 1)
            (editorUpdateRow { prev with chars := prev.chars ++ row.chars })).length =
            e.rows.length := by
          rw [List.length_set]
        constructor
        · show e.cy - 1 ≤ ((e.rows.set (e.cy - 1)
            (editorUpdateRow { prev with chars := prev.chars ++ row.chars })).eraseIdx
              e.cy).length
          rw [List.length_eraseIdx, hsetlen, if_pos hlt]
          omega
        · unfold rowLen
          have hg1 : ((e.rows.set (e.cy - 1)
              (editorUpdateRow { prev with chars := prev.chars ++ row.chars })).eraseIdx
              e.cy)[e.cy - 1]? =
              (e.rows.set (e.cy - 1)
                (editorUpdateRow { prev with chars := prev.chars ++ row.chars }))[e.cy - 1]? :=
            eraseIdx_getElem?_lt _ (by omega)
          have hg2 : (e.rows.set (e.cy - 1)
              (editorUpdateRow { prev with chars := prev.chars ++ row.chars }))[e.cy - 1]? =
              some (editorUpdateRow { prev with chars := prev.chars ++ row.chars }) :=
            List.getElem?_set_self hprevlt
          simp only [hg1, hg2]
          show prev.chars.length ≤
            (editorUpdateRow { prev with chars := prev.chars ++ row.chars }).chars.length
          simp only [editorUpdateRow]
          rw [List.length_append]
          omega
      · rw [(editorDelChar_cases e h).2.1 (by omega) (by omega)]
        exact h

/-- Every cursor-aware operation preserves the cursor invariant. -/
theorem cursorInv_applyOp (e : EditorState) (op : EditOp) (h : cursorInv e)
    (hsafe : cursorSafe op = true) : cursorInv (applyOp e op) := by
  cases op with
  | move key => exact cursorInv_moveCursor key e h
  | insCh c => exact cursorInv_insertChar c e h
  | delCh => exact cursorInv_delChar e h
  | insRow atIdx s => simp [cursorSafe] at hsafe
  | delRow atIdx => simp [cursorSafe] at hsafe

/-- The invariant survives any sequence of cursor-aware operations. -/
theorem cursorInv_applyOps (ops : List EditOp) : ∀ (e : EditorState), cursorInv e →
    (∀ op ∈ ops, cursorSafe op = true) → cursorInv (applyOps e ops) := by
  induction ops with
  | nil => intro e h _; exact h
  | cons op ops ih =>
    intro e h hsafe
    exact ih (applyOp e op) (cursorInv_applyOp e op h (hsafe op (List.mem_cons_self op ops)))
      (fun o ho => hsafe o (List.mem_cons_of_mem op ho))

/-- C3 as stated is false on the code: raw editorInsertRow does not adjust the
cursor, so typing one byte (cursor at column 1 of a one-byte row) and then
inserting a fresh empty row at index 0 leaves the cursor at column 1 of the
now-empty row 0, violating `cx ≤ rowLength(cy)`. -/
theorem cursor_invariant_counterexample :
    ¬ cursorInv (applyOps (initEditor 24 80) [EditOp.insCh 97, EditOp.insRow 0 []]) := by
  decide

/-- C3 (amended): after any sequence of moveCursor, insertChar (editor level)
and deleteChar (editorDelChar) operations from the initial editor state, the
cursor satisfies `0 ≤ cx ≤ rowLength(cy)` (with rowLength 0 past end of file)
and `0 ≤ cy ≤ rows.count`; raw insertRow/deleteRow calls are excluded, since
they move rows without adjusting the cursor. -/
theorem cursor_invariant_spec (wsRows wsCols : Nat) (ops : List EditOp)
    (hsafe : ∀ op ∈ ops, cursorSafe op = true) :
    cursorInv (applyOps (initEditor wsRows wsCols) ops) := by
  apply cursorInv_applyOps ops _ _ hsafe
  constructor
  · exact Nat.le_refl 0
  · exact Nat.le_refl 0

/-- Witness for C3 (amended) on a concrete safe sequence: type a byte, move
left, backspace. -/
theorem cursor_invariant_spec_witness :
    (∀ op ∈ [EditOp.insCh 97, EditOp.move ARROW_LEFT, EditOp.delCh], cursorSafe op = true) ∧
    cursorInv (applyOps (initEditor 24 80)
      [EditOp.insCh 97, EditOp.move ARROW_LEFT, EditOp.delCh]) :=
  ⟨by decide, cursor_invariant_spec 24 80 _ (by decide)⟩

/-! ### Backspace (claim C4) -/

/-- The result the backspace claim describes for the `cx > 0` case: the byte
at index `cx - 1` of the current row is deleted and `cx` decremented (the
current row read totally, with an empty row as the out-of-range default). -/
def delByteShape (e : EditorState) : EditorState :=
  let row := (e.rows[e.cy]?).getD { chars := [], render := [] }
  { e with rows := e.rows.set e.cy
             (editorUpdateRow { row with chars := row.chars.eraseIdx (e.cx - 1) }),
           cx := e.cx - 1, dirty := e.dirty + 1 }

/-- The result the backspace claim describes for the `cx = 0, cy > 0` case:
the current row's content is appended onto the previous row, the current row
deleted, and the cursor moved to the previous row's former end. -/
def mergeShape (e : EditorState) : EditorState :=
  let row := (e.rows[e.cy]?).getD { chars := [], render := [] }
  let prev := (e.rows[e.cy - 1]?).getD { chars := [], render := [] }
  { e with rows := (e.rows.set (e.cy - 1)
             (editorUpdateRow { prev with chars := prev.chars ++ row.chars })).eraseIdx e.cy,
           cy := e.cy - 1, cx := prev.chars.length, dirty := e.dirty + 2 }

/-- Claim C4 exactly as stated: backspace is a no-op only at the document
start (row 0, col 0) or past end-of-file with no rows; otherwise `cx > 0`
deletes the byte before the cursor, and `cx = 0, cy > 0` merges into the
previous row. -/
def delCharClaimAt (e : EditorState) : Prop :=
  (((e.cy = 0 ∧ e.cx = 0) ∨ e.rows.length = 0) → editorDelChar e = e) ∧
  (¬((e.cy = 0 ∧ e.cx = 0) ∨ e.rows.length = 0) →
    (0 < e.cx → editorDelChar e = delByteShape e) ∧
    (e.cx = 0 → 0 < e.cy → editorDelChar e = mergeShape e))

instance (e : EditorState) : Decidable (delCharClaimAt e) := by
  unfold delCharClaimAt
  infer_instance

/-- C4 as stated is false on the code: with one row 97 98 ("ab") and the
cursor on the virtual row past end of file (cy = 1 = row count, cx = 0) — a
state satisfying the cursor invariant — the code returns immediately, but the
claim's no-op condition ("document start, or past end-of-file with no rows")
does not cover this state, so its merge clause demands the cursor move to
(cy = 0, cx = 2). -/
theorem backspace_claim_counterexample :
    cursorInv { initEditor 24 80 with rows := [mkRow [97, 98]], cy := 1 } ∧
    ¬ delCharClaimAt { initEditor 24 80 with rows := [mkRow [97, 98]], cy := 1 } := by
  decide

/-- C4 (amended): under the cursor invariant, backspace is a no-op at the
document start and whenever the cursor is past end of file (cy equal to the
row count, whether or not rows exist); when the cursor is on a real row,
`cx > 0` deletes the byte at index `cx - 1` of the current row and decrements
`cx`, and `cx = 0, cy > 0` appends the current row onto the previous row,
deletes the current row, and moves the cursor to the previous row's former
end — in particular the ["ab","cd"] scenario merges to "abcd" with the cursor
at (0, 2). -/
theorem backspace_spec (e : EditorState) (h : cursorInv e) :
    ((e.cy = e.rows.length ∨ (e.cy = 0 ∧ e.cx = 0)) → editorDelChar e = e) ∧
    (e.cy < e.rows.length → 0 < e.cx → editorDelChar e = delByteShape e) ∧
    (e.cy < e.rows.length → e.cx = 0 → 0 < e.cy → editorDelChar e = mergeShape e) := by
  refine ⟨?_, ?_, ?_⟩
  · intro hor
    rcases hor with hcy | ⟨hy, hx⟩
    · exact (editorDelChar_cases e h).1 hcy
    · exact (editorDelChar_cases e h).2.1 hx hy
  · intro hlt hx
    obtain ⟨row, hrow⟩ := exists_row_of_lt hlt
    rw [(editorDelChar_cases e h).2.2.1 row hrow hx]
    unfold delByteShape
    rw [hrow]
    rfl
  · intro hlt hx hy
    obtain ⟨row, hrow⟩ := exists_row_of_lt hlt
    obtain ⟨prev, hprev⟩ := exists_row_of_lt (by omega : e.cy - 1 < e.rows.length)
    rw [(editorDelChar_cases e h).2.2.2 row prev hrow hprev hx hy]
    unfold mergeShape
    rw [hrow, hprev]
    rfl

/-- Witness for C4 (amended): the two-row scenario ["ab","cd"] with the cursor
at (cy = 1, cx = 0) merges into the single row "abcd" with the cursor at
(cy = 0, cx = 2). -/
theorem backspace_spec_witness :
    editorDelChar { initEditor 24 80 with rows := [mkRow [97, 98], mkRow [99, 100]], cy := 1 } =
      mergeShape { initEditor 24 80 with rows := [mkRow [97, 98], mkRow [99, 100]], cy := 1 } ∧
    (mergeShape { initEditor 24 80 with rows := [mkRow [97, 98], mkRow [99, 100]], cy := 1 }).rows =
      [mkRow [97, 98, 99, 100]] ∧
    (mergeShape { initEditor 24 80 with rows := [mkRow [97, 98], mkRow [99, 100]], cy := 1 }).cy = 0 ∧
    (mergeShape { initEditor 24 80 with rows := [mkRow [97, 98], mkRow [99, 100]], cy := 1 }).cx = 2 :=
  ⟨(backspace_spec _ (by decide)).2.2 (by decide) (by decide) (by decide),
   by decide, by decide, by decide⟩
